import Mathlib

/-!
# openal-soft: tone generator example and B-format decoder

Shallow embedding of `examples/altonegen.c` (argument parsing of `main`, the
length guard and the waveform switch of `CreateWave`) and of the data model
declared in `core/bformatdec.h`.

Machine integers are natural numbers with explicit reduction modulo `2^32`
where the C code computes in `ALuint`.
-/

namespace ALToneGen

/-! ## Constants of the C environment -/

/-- Value of `INT_MAX` for a 32-bit `int`. -/
def INT_MAX : Nat := 2147483647

/-- Value of `sizeof(ALfloat)`: `ALfloat` is a 32-bit float. -/
def sizeofALfloat : Nat := 4

/-- Number of values of an `ALuint` (32-bit unsigned). -/
def ALuintSize : Nat := 4294967296

/-- The enum `WaveType`. -/
inductive WaveType where
  | WT_Sine
  | WT_Square
  | WT_Sawtooth
  | WT_Triangle
  | WT_Impulse
  | WT_WhiteNoise
  deriving DecidableEq, Repr

open WaveType

/-- The function `GetWaveTypeName`. -/
def GetWaveTypeName : WaveType → String
  | WT_Sine => "sine"
  | WT_Square => "square"
  | WT_Sawtooth => "sawtooth"
  | WT_Triangle => "triangle"
  | WT_Impulse => "impulse"
  | WT_WhiteNoise => "noise"

/-- The function `dither_rng`: advances the seed and returns it, in `ALuint` arithmetic. -/
def dither_rng (seed : Nat) : Nat :=
  (seed * 96314165 + 907633515) % ALuintSize

/-- One call `ApplySin(data, length, g, srate, freq)`. The amplitude `g` is a
double computed from the harmonic index; the call records the index it was
computed from (`harmonic`) instead of the floating-point value. -/
structure SinCall where
  length : Nat
  srate : Nat
  freq : Nat
  harmonic : Nat
  deriving DecidableEq, Repr

/-- The loops `for(i = 1; freq*i < srate/2; i += step) ApplySin(.., srate, freq*i)`
of the waveform switch, with `freq*i` and `i += step` computed in `ALuint`.
The loop has no bound of its own, so the embedding takes fuel and answers
`none` when it runs out. -/
def harmonicLoop (step freq srate length : Nat) : Nat → Nat → Option (List SinCall)
  | 0, _ => none
  | fuel + 1, i =>
    if (freq * i) % ALuintSize < srate / 2 then
      (harmonicLoop step freq srate length fuel ((i + step) % ALuintSize)).map
        (fun rest => ⟨length, srate, (freq * i) % ALuintSize, i⟩ :: rest)
    else
      some []

/-- The `switch(type)` of `CreateWave`, as the list of the `ApplySin` calls it
makes, in order. Impulse and white noise write samples directly and call
`ApplySin` not at all. -/
def waveformSines (fuel : Nat) (type : WaveType) (num_samples freq srate : Nat) :
    Option (List SinCall) :=
  match type with
  | WT_Sine => some [⟨num_samples, srate, freq, 1⟩]
  | WT_Square => harmonicLoop 2 freq srate num_samples fuel 1
  | WT_Sawtooth => harmonicLoop 1 freq srate num_samples fuel 1
  | WT_Triangle => harmonicLoop 2 freq srate num_samples fuel 1
  | WT_Impulse => some []
  | WT_WhiteNoise => some []

/-- The condition of the first `if` of `CreateWave`:
`seconds > INT_MAX / srate / sizeof(ALfloat)`. `INT_MAX` is converted to
unsigned for the first division and the quotient to `size_t` for the second;
no operand is negative and a quotient cannot wrap. -/
def tooManySeconds (seconds srate : Nat) : Bool :=
  decide (seconds > INT_MAX / srate / sizeofALfloat)

/-- What a run of `CreateWave` does before it hands the samples to OpenAL. -/
inductive WaveTrace where
  /-- The "Too many seconds" branch: a message on stderr and `return 0`. -/
  | tooMany
  /-- The samples were generated: `num_samples`, `data_size` and the `ApplySin` calls. -/
  | generated (num_samples data_size : Nat) (sines : List SinCall)
  deriving DecidableEq, Repr

/-- The function `CreateWave` up to the call of `alBufferData`. `gain` only
scales the samples and is left out. `none` means the fuel of a harmonic loop
ran out. -/
def CreateWave (fuel : Nat) (type : WaveType) (seconds freq srate : Nat) : Option WaveTrace :=
  if tooManySeconds seconds srate then
    some WaveTrace.tooMany
  else
    let num_samples := (seconds * srate) % ALuintSize
    let data_size := (num_samples * sizeofALfloat) % ALuintSize
    (waveformSines fuel type num_samples freq srate).map
      (fun sines => WaveTrace.generated num_samples data_size sines)

/-- The value `CreateWave` returns: 0 from the "Too many seconds" branch, 0
when OpenAL reports an error (`alErr`), and otherwise the buffer name
`buffer` that `alGenBuffers` produced. -/
def CreateWaveReturn (alErr : Bool) (buffer : Nat) : WaveTrace → Nat
  | WaveTrace.tooMany => 0
  | WaveTrace.generated _ _ _ => if alErr then 0 else buffer

/-- Whether a waveform type is built by additive synthesis. -/
def isAdditive : WaveType → Bool
  | WT_Sine | WT_Square | WT_Sawtooth | WT_Triangle => true
  | WT_Impulse | WT_WhiteNoise => false

/-! ## Option parsing of `main` -/

/-- The variables of `main` that the option loop sets and that are integers or
enums. `gain` and the source position are floats; their options are parsed (they
consume their argument) but the values are not tracked. -/
structure Options where
  wavetype : WaveType
  seconds : Nat
  srate : Int
  tone_freq : Nat
  deriving DecidableEq, Repr

/-- The initialisers at the top of `main`. -/
def initialOptions : Options :=
  { wavetype := WT_Sine, seconds := 4, srate := -1, tone_freq := 1000 }

/-- The C library's number parsers as `main` uses them (base 0): the converted
value and whether the whole argument was consumed (`endptr` set and
`*endptr == 0`). -/
structure NumParsers where
  strtoul : String → Nat × Bool
  strtol : String → Int × Bool

/-- The cast `(ALint)` of a `long`: reduction to the 32-bit signed range. -/
def toALint (v : Int) : Int :=
  (v + 2147483648) % 4294967296 - 2147483648

/-- The `-w` branch: the waveform named by the argument, or the old value after
the "Unhandled waveform" message. -/
def parseWaveform (old : WaveType) (s : String) : WaveType :=
  if s = "sine" then WT_Sine
  else if s = "square" then WT_Square
  else if s = "sawtooth" then WT_Sawtooth
  else if s = "triangle" then WT_Triangle
  else if s = "impulse" then WT_Impulse
  else if s = "noise" then WT_WhiteNoise
  else old

/-- The `for(i = 0; i < argc; i++)` loop of `main` over the arguments that
`InitAL` left. `none` is the help branch (`return 1`). An option that takes a
value is only recognised when a further argument follows (`i+1 < argc`), and
then skips it. -/
def parseArgs (p : NumParsers) : List String → Options → Option Options
  | [], o => some o
  | [a], o =>
    if a = "-h" ∨ a = "-?" ∨ a = "--help" then none else some o
  | a :: v :: rest, o =>
    if a = "-h" ∨ a = "-?" ∨ a = "--help" then none
    else if a = "-t" then
      let r := p.strtoul v
      let seconds := r.1 % ALuintSize
      parseArgs p rest { o with seconds := if !r.2 ∨ seconds ≤ 0 then 4 else seconds }
    else if a = "--waveform" ∨ a = "-w" then
      parseArgs p rest { o with wavetype := parseWaveform o.wavetype v }
    else if a = "--freq" ∨ a = "-f" then
      let r := p.strtoul v
      let tone_freq := r.1 % ALuintSize
      parseArgs p rest { o with tone_freq := if !r.2 ∨ tone_freq < 1 then 1 else tone_freq }
    else if a = "--gain" ∨ a = "-g" then
      parseArgs p rest o
    else if a = "--srate" ∨ a = "-s" then
      let r := p.strtol v
      let srate := toALint r.1
      parseArgs p rest { o with srate := if !r.2 ∨ srate < 40 then 40 else srate }
    else if a = "--position" ∨ a = "-p" then
      parseArgs p rest o
    else
      parseArgs p (v :: rest) o

/-- The `seconds` argument of the call `CreateWave(wavetype, seconds, ...)` in
`main`, for the arguments left after `InitAL`; `none` when `main` returns from
the help branch before it gets there. -/
def mainSeconds (p : NumParsers) (args : List String) : Option Nat :=
  (parseArgs p args initialOptions).map (fun o => o.seconds)

/-- The default play time that the help text of `main` announces:
"-t <seconds>  Time to play a tone (default 5 seconds)". -/
def helpDefaultSeconds : Nat := 5

end ALToneGen

namespace Core

/-! ## Data model of `core/bformatdec.h` -/

/-- A `std::array<T,N>`: a sequence of exactly `N` elements. -/
abbrev StdArray (α : Type) (N : Nat) : Type := { l : List α // l.length = N }

/-- Element `i` of a `std::array`. -/
def StdArray.get {α : Type} {N : Nat} (a : StdArray α N) (i : Fin N) : α :=
  a.1.get (i.cast a.2.symm)

/-- The value-initialised array `{}`: every element zero. -/
def StdArray.zero {α : Type} [Zero α] (N : Nat) : StdArray α N :=
  ⟨List.replicate N 0, List.length_replicate N 0⟩

/-- The alias `using ChannelDec = std::array<float,MaxAmbiChannels>`. The
constant `MaxAmbiChannels` comes from `ambidefs.h` and is a parameter here. -/
abbrev ChannelDec (F : Type) (MaxAmbiChannels : Nat) : Type := StdArray F MaxAmbiChannels

/-- The type `FloatBufferLine` of `bufferline.h`, a line of samples, as the
sequence of its samples. -/
abbrev FloatBufferLine (F : Type) : Type := List F

/-- The constant `sHFBand`. -/
def sHFBand : Nat := 0

/-- The constant `sLFBand`. -/
def sLFBand : Nat := 1

/-- The constant `sNumBands`. -/
def sNumBands : Nat := 2

/-- The struct `BFormatDec::ChannelDecoderSingle`. The constant
`MaxOutputChannels` comes from `devformat.h` and is a parameter here. -/
structure ChannelDecoderSingle (F : Type) (MaxOutputChannels : Nat) where
  mGains : StdArray F MaxOutputChannels

/-- The struct `BFormatDec::ChannelDecoderDual`; `X` is the type `BandSplitter`
of `filters/splitter.h`. -/
structure ChannelDecoderDual (F X : Type) (MaxOutputChannels : Nat) where
  mXOver : X
  mGains : StdArray (StdArray F MaxOutputChannels) sNumBands

/-- The alias `SBandDecoderVector`. -/
abbrev SBandDecoderVector (F : Type) (MaxOutputChannels : Nat) : Type :=
  List (ChannelDecoderSingle F MaxOutputChannels)

/-- The alias `DBandDecoderVector`. -/
abbrev DBandDecoderVector (F X : Type) (MaxOutputChannels : Nat) : Type :=
  List (ChannelDecoderDual F X MaxOutputChannels)

/-- The class `BFormatDec`: its three data members. `S` is the type
`FrontStablizer` of `front_stablizer.h`; the `unique_ptr` is `none` when null.
The `std::variant` of the two decoder vectors is a sum. -/
structure BFormatDec (F X S : Type) (MaxOutputChannels : Nat) where
  mSamples : StdArray (FloatBufferLine F) 2
  mStablizer : Option S
  mChannelDec : SBandDecoderVector F MaxOutputChannels ⊕ DBandDecoderVector F X MaxOutputChannels

/-- The member function `hasStablizer`: `return mStablizer != nullptr;`. -/
def BFormatDec.hasStablizer {F X S : Type} {M : Nat} (d : BFormatDec F X S M) : Bool :=
  match d.mStablizer with
  | some _ => true
  | none => false

/-- A call of `hasStablizer` as a step on the decoder: the result and the decoder
afterwards. The member function is `const noexcept`, so the decoder afterwards is
the decoder it was called on. -/
def BFormatDec.callHasStablizer {F X S : Type} {M : Nat} (d : BFormatDec F X S M) :
    Bool × BFormatDec F X S M :=
  (d.hasStablizer, d)

/-- Which alternative of the variant a channel decoder entry belongs to. -/
inductive BandMode where
  | single
  | dual
  deriving DecidableEq, Repr

/-- The band mode of every entry of the decode matrix, in order. -/
def BFormatDec.entryModes {F X S : Type} {M : Nat} (d : BFormatDec F X S M) : List BandMode :=
  match d.mChannelDec with
  | Sum.inl v => v.map (fun _ => BandMode.single)
  | Sum.inr v => v.map (fun _ => BandMode.dual)

/-- The gain vector of one band of a dual-band entry. -/
def ChannelDecoderDual.bandGains {F X : Type} {M : Nat} (e : ChannelDecoderDual F X M)
    (band : Fin sNumBands) : StdArray F M :=
  e.mGains.get band

/-! ## Construction and `process`

Only the declarations of the constructor and of `process` are in
`bformatdec.h`; their bodies are modelled from the specification. -/

/-- Modelled from the spec: the Band Splitter collaborator (`filters/splitter.h`
is not among the sources), by its interface of section 6: it is constructed from
a normalized crossover frequency, and `split(inputSamples, sampleCount)` gives the
new filter state, the high-band samples and the low-band samples. -/
structure BandSplitterOps (F X : Type) where
  init : F → X
  split : X → List F → Nat → X × List F × List F

/-- Modelled from the spec: the gain vector a channel decoder holds for a
supplied coefficient vector (the constructor body is not among the sources), per
section 4.1 "holding the supplied gain vector, truncated/zero-padded to the input
channel count" and the invariant of section 3 "all other positions are defined as
zero contribution". -/
def storeGains {F : Type} [Zero F] {A : Nat} (M inchans : Nat) (c : ChannelDec F A) :
    StdArray F M :=
  ⟨(List.range M).map (fun i => if i < inchans then c.1.getD i 0 else 0), by simp⟩

/-- Modelled from the spec: the constructor `BFormatDec::BFormatDec` (its body is
not among the sources), per section 4.1: without low-band gains one single-band
entry per output channel; with low-band gains of the same length one dual-band
entry per output channel, each with a freshly initialised Band Splitter for the
crossover frequency and both gain vectors (high band at `sHFBand`, low band at
`sLFBand`); `none` for the contract violation of mismatched lengths. The two
scratch buffers start empty: their content is never read before it is written. -/
def BFormatDec.construct {F X S : Type} [Zero F] {A : Nat} (ops : BandSplitterOps F X)
    (M inchans : Nat) (coeffs coeffslf : List (ChannelDec F A)) (xover_f0norm : F)
    (stablizer : Option S) : Option (BFormatDec F X S M) :=
  if coeffslf.isEmpty then
    some { mSamples := ⟨[[], []], rfl⟩
           mStablizer := stablizer
           mChannelDec := Sum.inl (coeffs.map (fun c => ⟨storeGains M inchans c⟩)) }
  else if coeffslf.length = coeffs.length then
    some { mSamples := ⟨[[], []], rfl⟩
           mStablizer := stablizer
           mChannelDec := Sum.inr ((coeffs.zip coeffslf).map (fun c =>
             { mXOver := ops.init xover_f0norm
               mGains := ⟨[storeGains M inchans c.1, storeGains M inchans c.2], rfl⟩ })) }
  else
    none

/-- Modelled from the spec: the decoder's initialising write (the body of
`process` is not among the sources). Section 4.2 has the core's own first write
initialise rather than accumulate, and section 8 fixes the expected behaviour:
the first `n` samples of the output line are set to zero before any contribution
is added; later samples are left as they are. -/
def clearSamples {F : Type} [Zero F] : Nat → FloatBufferLine F → FloatBufferLine F
  | 0, dst => dst
  | _ + 1, [] => []
  | n + 1, _ :: ds => 0 :: clearSamples n ds

/-- Modelled from the spec: "accumulate `gain * input_sample` into the output
buffer for the full requested sample range" (section 4.2): the first `n` samples
of `dst` each gain `g` times the sample of `src` at the same position. -/
def mixSamples {F : Type} [Zero F] [Add F] [Mul F] (g : F) :
    FloatBufferLine F → Nat → FloatBufferLine F → FloatBufferLine F
  | _, 0, dst => dst
  | _, _ + 1, [] => []
  | src, n + 1, d :: ds => (d + g * src.headD 0) :: mixSamples g src.tail n ds

/-- Modelled from the spec: single-band decode of one output channel (section
4.2): "for every ambisonic input channel with non-zero gain, accumulate
`gain * input_sample` into the output buffer". `i` is the index of the first
input line of the list. -/
def decodeRowSingle {F : Type} [Zero F] [Add F] [Mul F] [DecidableEq F]
    (gains : List F) (n : Nat) :
    List (FloatBufferLine F) → Nat → FloatBufferLine F → FloatBufferLine F
  | [], _, out => out
  | inp :: rest, i, out =>
    decodeRowSingle gains n rest (i + 1)
      (if gains.getD i 0 = 0 then out else mixSamples (gains.getD i 0) inp n out)

/-- Modelled from the spec: the single-band path of `process` over all output
channels: entry `o` of the decode matrix decodes into output line `o`; output
lines beyond the decode matrix are not written. -/
def processSingle {F : Type} [Zero F] [Add F] [Mul F] [DecidableEq F] {M : Nat}
    (InSamples : List (FloatBufferLine F)) (n : Nat) :
    SBandDecoderVector F M → List (FloatBufferLine F) → List (FloatBufferLine F)
  | [], bufs => bufs
  | _ :: _, [] => []
  | e :: es, b :: bs =>
    decodeRowSingle e.mGains.1 n InSamples 0 (clearSamples n b)
      :: processSingle InSamples n es bs

/-- Modelled from the spec: dual-band decode of one output channel (section
4.2): every ambisonic input channel is run once through the output channel's own
Band Splitter into the two scratch buffers, then `highGain * highBandSample` and
`lowGain * lowBandSample` are accumulated into the output buffer. The result is
the splitter state, the scratch buffers and the output line. -/
def decodeRowDual {F X : Type} [Zero F] [Add F] [Mul F] (ops : BandSplitterOps F X)
    (hfGains lfGains : List F) (n : Nat) :
    List (FloatBufferLine F) → Nat → X → StdArray (FloatBufferLine F) 2 → FloatBufferLine F →
      X × StdArray (FloatBufferLine F) 2 × FloatBufferLine F
  | [], _, x, scratch, out => (x, scratch, out)
  | inp :: rest, i, x, _, out =>
    let r := ops.split x inp n
    decodeRowDual ops hfGains lfGains n rest (i + 1) r.1 ⟨[r.2.1, r.2.2], rfl⟩
      (mixSamples (lfGains.getD i 0) r.2.2 n (mixSamples (hfGains.getD i 0) r.2.1 n out))

/-- Modelled from the spec: the dual-band path of `process` over all output
channels. The result is the decode matrix with the advanced splitter states, the
scratch buffers and the output lines. -/
def processDual {F X : Type} [Zero F] [Add F] [Mul F] {M : Nat} (ops : BandSplitterOps F X)
    (InSamples : List (FloatBufferLine F)) (n : Nat) :
    DBandDecoderVector F X M → StdArray (FloatBufferLine F) 2 → List (FloatBufferLine F) →
      DBandDecoderVector F X M × StdArray (FloatBufferLine F) 2 × List (FloatBufferLine F)
  | [], scratch, bufs => ([], scratch, bufs)
  | e :: es, scratch, [] => (e :: es, scratch, [])
  | e :: es, scratch, b :: bs =>
    let r := decodeRowDual ops (e.bandGains ⟨sHFBand, by decide⟩).1
      (e.bandGains ⟨sLFBand, by decide⟩).1 n InSamples 0 e.mXOver scratch (clearSamples n b)
    let rs := processDual ops InSamples n es r.2.1 bs
    ({ e with mXOver := r.1 } :: rs.1, rs.2.1, r.2.2 :: rs.2.2)

/-- Modelled from the spec: the member function `process` (only its declaration
is among the sources), per section 4.2: one branch on the band mode chosen at
construction, then the single-band or the dual-band decode. The result is the
decoder afterwards and the output buffers afterwards. -/
def BFormatDec.process {F X S : Type} [Zero F] [Add F] [Mul F] [DecidableEq F] {M : Nat}
    (ops : BandSplitterOps F X) (d : BFormatDec F X S M)
    (OutBuffer InSamples : List (FloatBufferLine F)) (SamplesToDo : Nat) :
    BFormatDec F X S M × List (FloatBufferLine F) :=
  match d.mChannelDec with
  | Sum.inl decoder => (d, processSingle InSamples SamplesToDo decoder OutBuffer)
  | Sum.inr decoder =>
    let r := processDual ops InSamples SamplesToDo decoder d.mSamples OutBuffer
    ({ d with mSamples := r.2.1, mChannelDec := Sum.inr r.1 }, r.2.2)

/-- The gain vectors that entry `o` of the decode matrix holds: one for a
single-band entry, the high-band and the low-band one for a dual-band entry;
`none` when the decode matrix has no entry `o`. -/
def BFormatDec.gainVectors {F X S : Type} {M : Nat} (d : BFormatDec F X S M) (o : Nat) :
    Option (List (List F)) :=
  match d.mChannelDec with
  | Sum.inl v => (v[o]?).map (fun e => [e.mGains.1])
  | Sum.inr v => (v[o]?).map (fun e => e.mGains.1.map (fun gv => gv.1))

/-- A stateless stand-in for the Band Splitter, used for concrete examples: the
whole signal goes to the high band and silence to the low band. -/
def passThroughSplitter : BandSplitterOps ℚ Unit :=
  ⟨fun _ => (), fun _ inp n => ((), inp, List.replicate n 0)⟩

/-- Example decoder: two single-band output channels with gain 1 on the only
ambisonic channel, `MaxOutputChannels = 1`, no stabilizer. -/
def exampleSingleDec : BFormatDec ℚ Unit Unit 1 :=
  { mSamples := ⟨[[], []], rfl⟩
    mStablizer := none
    mChannelDec := Sum.inl [⟨⟨[1], rfl⟩⟩, ⟨⟨[1], rfl⟩⟩] }

/-- Example dual-band entry: both gain vectors zero, `MaxOutputChannels = 1`. -/
def exampleSilentEntry : ChannelDecoderDual ℚ Unit 1 :=
  ⟨(), ⟨[⟨[0], rfl⟩, ⟨[0], rfl⟩], rfl⟩⟩

/-- Example decoder: one dual-band output channel whose two gain vectors are
zero, `MaxOutputChannels = 1`, no stabilizer. -/
def exampleSilentDec : BFormatDec ℚ Unit Unit 1 :=
  { mSamples := ⟨[[], []], rfl⟩
    mStablizer := none
    mChannelDec := Sum.inr [exampleSilentEntry] }

/-- The band-split lines that one output channel's Band Splitter produces during
a dual-band decode, in order: for every input line the high-band line and then
the low-band line, the splitter state carried from one input line to the next
as in `decodeRowDual`. -/
def rowSplits {F X : Type} (ops : BandSplitterOps F X) (n : Nat) :
    List (FloatBufferLine F) → X → List (FloatBufferLine F)
  | [], _ => []
  | inp :: rest, x =>
    (ops.split x inp n).2.1 :: (ops.split x inp n).2.2
      :: rowSplits ops n rest (ops.split x inp n).1

/-- The values of a `float` sample as far as a zero gain can tell them apart:
finite values (exact; rounding and the sign of zero are not modelled), the two
infinities and NaN. -/
inductive FloatVal where
  | finite (q : ℚ)
  | inf (negative : Bool)
  | nan
  deriving DecidableEq

/-- Sum of two `float` values with the IEEE 754 rules for non-finite operands:
NaN propagates, infinities of opposite sign give NaN. -/
def FloatVal.add : FloatVal → FloatVal → FloatVal
  | FloatVal.finite a, FloatVal.finite b => FloatVal.finite (a + b)
  | FloatVal.finite _, FloatVal.inf s => FloatVal.inf s
  | FloatVal.inf s, FloatVal.finite _ => FloatVal.inf s
  | FloatVal.inf s, FloatVal.inf t => if s = t then FloatVal.inf s else FloatVal.nan
  | FloatVal.nan, _ => FloatVal.nan
  | _, FloatVal.nan => FloatVal.nan

/-- Product of two `float` values with the IEEE 754 rules for non-finite
operands: NaN propagates, zero times an infinity is NaN. -/
def FloatVal.mul : FloatVal → FloatVal → FloatVal
  | FloatVal.finite a, FloatVal.finite b => FloatVal.finite (a * b)
  | FloatVal.finite a, FloatVal.inf s =>
    if a = 0 then FloatVal.nan else FloatVal.inf (xor s (decide (a < 0)))
  | FloatVal.inf s, FloatVal.finite b =>
    if b = 0 then FloatVal.nan else FloatVal.inf (xor s (decide (b < 0)))
  | FloatVal.inf s, FloatVal.inf t => FloatVal.inf (xor s t)
  | FloatVal.nan, _ => FloatVal.nan
  | _, FloatVal.nan => FloatVal.nan

instance : Zero FloatVal := ⟨FloatVal.finite 0⟩

instance : Add FloatVal := ⟨FloatVal.add⟩

instance : Mul FloatVal := ⟨FloatVal.mul⟩

/-- A stateless stand-in for the Band Splitter on `FloatVal` samples: the whole
signal goes to the high band and silence to the low band. -/
def floatPassThrough : BandSplitterOps FloatVal Unit :=
  ⟨fun _ => (), fun _ inp n => ((), inp, List.replicate n 0)⟩

/-- Example dual-band entry on `FloatVal` samples: both gain vectors zero,
`MaxOutputChannels = 1`. -/
def floatSilentEntry : ChannelDecoderDual FloatVal Unit 1 :=
  ⟨(), ⟨[⟨[0], rfl⟩, ⟨[0], rfl⟩], rfl⟩⟩

/-- Example decoder on `FloatVal` samples: one dual-band output channel whose two
gain vectors are zero, no stabilizer. -/
def floatSilentDec : BFormatDec FloatVal Unit Unit 1 :=
  { mSamples := ⟨[[], []], rfl⟩
    mStablizer := none
    mChannelDec := Sum.inr [floatSilentEntry] }

/-- The coefficient vector with gain `g` for the first ambisonic channel (W) and
zero for the others. -/
def wCoeff {F : Type} [Zero F] (A : Nat) (g : F) : ChannelDec F (A + 1) :=
  ⟨g :: List.replicate A 0, by simp⟩

end Core

/-! ## Theorems -/

namespace ALToneGen

open WaveType

theorem tooManySeconds_iff (seconds srate : Nat) (hs : 1 ≤ srate) :
    tooManySeconds seconds srate = true ↔ seconds * srate * sizeofALfloat > INT_MAX := by
  unfold tooManySeconds
  simp only [decide_eq_true_eq, gt_iff_lt]
  rw [Nat.div_div_eq_div_mul, Nat.div_lt_iff_lt_mul (by unfold sizeofALfloat; omega), Nat.mul_assoc]

theorem harmonicLoop_below (step freq srate length : Nat) :
    ∀ (fuel i : Nat) (l : List SinCall), harmonicLoop step freq srate length fuel i = some l →
      ∀ c ∈ l, c.freq < srate / 2 ∧ c.srate = srate ∧ c.length = length := by
  intro fuel
  induction fuel with
  | zero => intro i l h; simp [harmonicLoop] at h
  | succ fuel ih =>
    intro i l h
    unfold harmonicLoop at h
    split at h
    · rename_i hg
      cases hrec : harmonicLoop step freq srate length fuel ((i + step) % ALuintSize) with
      | none => simp [hrec] at h
      | some rest =>
        simp only [hrec, Option.map_some', Option.some.injEq] at h
        subst h
        intro c hc
        rcases List.mem_cons.mp hc with rfl | hc
        · exact ⟨hg, rfl, rfl⟩
        · exact ih _ rest hrec c hc
    · simp only [Option.some.injEq] at h
      subst h
      intro c hc
      simp at hc

theorem mul_max_mod (freq : Nat) (hf : 1 ≤ freq) (hfr : freq < 4294967296) :
    (freq * 4294967295) % 4294967296 = 4294967296 - freq := by
  have h : freq * 4294967295 = (4294967296 - freq) + 4294967296 * (freq - 1) := by omega
  rw [h, Nat.add_mul_mod_self_left]
  exact Nat.mod_eq_of_lt (by omega)

theorem harmonicLoop_returns (step freq srate length : Nat) (hstep : step = 1 ∨ step = 2)
    (hf : 1 ≤ freq) (hlt : freq < srate / 2) (hsr : srate < ALuintSize) :
    ∀ (fuel i : Nat), i < ALuintSize → (step = 2 → i % 2 = 1) → ALuintSize - i < fuel →
      ∃ l, harmonicLoop step freq srate length fuel i = some l := by
  intro fuel
  induction fuel with
  | zero => intro i _ _ h; omega
  | succ fuel ih =>
    intro i hi hodd hfuel
    unfold harmonicLoop
    split
    · rename_i hg
      have hne : i ≠ 4294967295 := by
        rintro rfl
        have hwrap := mul_max_mod freq hf (by unfold ALuintSize at hsr; omega)
        unfold ALuintSize at hg hsr
        omega
      unfold ALuintSize at hi hfuel hsr
      have hnext : (i + step) % ALuintSize = i + step := by
        unfold ALuintSize
        rcases hstep with rfl | rfl
        · omega
        · have := hodd rfl
          omega
      obtain ⟨l, hl⟩ := ih ((i + step) % ALuintSize)
        (by rw [hnext]; unfold ALuintSize; rcases hstep with rfl | rfl
            · omega
            · have := hodd rfl
              omega)
        (by intro h2; rw [hnext]; have := hodd h2; omega)
        (by rw [hnext]; unfold ALuintSize; rcases hstep with rfl | rfl <;> omega)
      exact ⟨_, by rw [hl]; rfl⟩
    · exact ⟨[], rfl⟩

theorem harmonicLoop_first (step freq srate length fuel : Nat) (hlt : freq < srate / 2)
    (l : List SinCall)
    (h : harmonicLoop step freq srate length fuel 1 = some l) : l ≠ [] := by
  cases fuel with
  | zero => simp [harmonicLoop] at h
  | succ fuel =>
    unfold harmonicLoop at h
    have hg : (freq * 1) % ALuintSize < srate / 2 := by
      unfold ALuintSize at *
      omega
    rw [if_pos hg] at h
    cases hrec : harmonicLoop step freq srate length fuel ((1 + step) % ALuintSize) with
    | none => simp [hrec] at h
    | some rest =>
      simp only [hrec, Option.map_some', Option.some.injEq] at h
      subst h
      simp

theorem harmonicLoop_total (step freq srate length fuel : Nat) (hstep : step = 1 ∨ step = 2)
    (hf : 1 ≤ freq) (hfr : freq < ALuintSize) (hsr : srate < ALuintSize)
    (hfuel : ALuintSize ≤ fuel) :
    ∃ l, harmonicLoop step freq srate length fuel 1 = some l := by
  by_cases hlt : freq < srate / 2
  · exact harmonicLoop_returns step freq srate length hstep hf hlt hsr fuel 1
      (by unfold ALuintSize; omega) (by intro _; rfl) (by unfold ALuintSize at *; omega)
  · obtain ⟨k, rfl⟩ : ∃ k, fuel = k + 1 := ⟨fuel - 1, by unfold ALuintSize at hfuel; omega⟩
    refine ⟨[], ?_⟩
    unfold harmonicLoop
    have hg : ¬ (freq * 1) % ALuintSize < srate / 2 := by
      unfold ALuintSize at *
      omega
    rw [if_neg hg]

theorem harmonicLoop_above (step freq srate length fuel : Nat) (hfr : freq < ALuintSize)
    (hge : srate / 2 ≤ freq) (l : List SinCall)
    (h : harmonicLoop step freq srate length fuel 1 = some l) : l = [] := by
  cases fuel with
  | zero => simp [harmonicLoop] at h
  | succ fuel =>
    unfold harmonicLoop at h
    have hg : ¬ (freq * 1) % ALuintSize < srate / 2 := by
      unfold ALuintSize at *
      omega
    rw [if_neg hg] at h
    exact (Option.some.inj h).symm

theorem waveformSines_above (fuel : Nat) (type : WaveType) (n freq srate : Nat)
    (hadd : isAdditive type = true) (hne : type ≠ WT_Sine) (hfr : freq < ALuintSize)
    (hge : srate / 2 ≤ freq) (l : List SinCall)
    (h : waveformSines fuel type n freq srate = some l) : l = [] := by
  cases type
  case WT_Sine => exact absurd rfl hne
  case WT_Square => exact harmonicLoop_above 2 freq srate n fuel hfr hge l h
  case WT_Sawtooth => exact harmonicLoop_above 1 freq srate n fuel hfr hge l h
  case WT_Triangle => exact harmonicLoop_above 2 freq srate n fuel hfr hge l h
  case WT_Impulse => simp [isAdditive] at hadd
  case WT_WhiteNoise => simp [isAdditive] at hadd

theorem waveformSines_total (fuel : Nat) (type : WaveType) (n freq srate : Nat)
    (hf : 1 ≤ freq) (hfr : freq < ALuintSize) (hsr : srate < ALuintSize)
    (hfuel : ALuintSize ≤ fuel) :
    ∃ l, waveformSines fuel type n freq srate = some l := by
  cases type
  case WT_Sine => exact ⟨_, rfl⟩
  case WT_Square => exact harmonicLoop_total 2 freq srate n fuel (Or.inr rfl) hf hfr hsr hfuel
  case WT_Sawtooth => exact harmonicLoop_total 1 freq srate n fuel (Or.inl rfl) hf hfr hsr hfuel
  case WT_Triangle => exact harmonicLoop_total 2 freq srate n fuel (Or.inr rfl) hf hfr hsr hfuel
  case WT_Impulse => exact ⟨_, rfl⟩
  case WT_WhiteNoise => exact ⟨_, rfl⟩

theorem waveformSines_below (fuel : Nat) (type : WaveType) (n freq srate : Nat)
    (l : List SinCall) (h : waveformSines fuel type n freq srate = some l)
    (hcase : type ≠ WT_Sine ∨ freq < srate / 2) :
    ∀ c ∈ l, c.freq < srate / 2 := by
  cases type
  case WT_Sine =>
    rcases hcase with hne | hlt
    · exact absurd rfl hne
    · simp only [waveformSines, Option.some.injEq] at h
      subst h
      intro c hc
      simp only [List.mem_singleton] at hc
      subst hc
      exact hlt
  case WT_Square => exact fun c hc => (harmonicLoop_below 2 freq srate n fuel 1 l h c hc).1
  case WT_Sawtooth => exact fun c hc => (harmonicLoop_below 1 freq srate n fuel 1 l h c hc).1
  case WT_Triangle => exact fun c hc => (harmonicLoop_below 2 freq srate n fuel 1 l h c hc).1
  case WT_Impulse =>
    simp only [waveformSines, Option.some.injEq] at h
    subst h
    simp
  case WT_WhiteNoise =>
    simp only [waveformSines, Option.some.injEq] at h
    subst h
    simp

theorem waveformSines_nonempty (fuel : Nat) (type : WaveType) (n freq srate : Nat)
    (hadd : isAdditive type = true) (hlt : freq < srate / 2)
    (l : List SinCall) (h : waveformSines fuel type n freq srate = some l) : l ≠ [] := by
  cases type
  case WT_Sine =>
    simp only [waveformSines, Option.some.injEq] at h
    subst h
    simp
  case WT_Square => exact harmonicLoop_first 2 freq srate n fuel hlt l h
  case WT_Sawtooth => exact harmonicLoop_first 1 freq srate n fuel hlt l h
  case WT_Triangle => exact harmonicLoop_first 2 freq srate n fuel hlt l h
  case WT_Impulse => simp [isAdditive] at hadd
  case WT_WhiteNoise => simp [isAdditive] at hadd

theorem no_wrap_of_guard (seconds srate : Nat)
    (h : ¬ INT_MAX < seconds * srate * sizeofALfloat) :
    (seconds * srate) % ALuintSize = seconds * srate ∧
      ((seconds * srate) % ALuintSize * sizeofALfloat) % ALuintSize
        = seconds * srate * sizeofALfloat := by
  unfold INT_MAX sizeofALfloat at h
  unfold ALuintSize sizeofALfloat
  have h1 : (seconds * srate) % 4294967296 = seconds * srate := Nat.mod_eq_of_lt (by omega)
  rw [h1]
  exact ⟨rfl, Nat.mod_eq_of_lt (by omega)⟩

theorem parseArgs_keeps_seconds (p : NumParsers) :
    ∀ (n : Nat) (args : List String) (o o' : Options), args.length ≤ n → "-t" ∉ args →
      parseArgs p args o = some o' → o'.seconds = o.seconds := by
  intro n
  induction n with
  | zero =>
    intro args o o' hlen _ h
    have : args = [] := List.length_eq_zero.mp (Nat.le_zero.mp hlen)
    subst this
    simp only [parseArgs, Option.some.injEq] at h
    rw [h]
  | succ n ih =>
    intro args o o' hlen hnt h
    match args, hlen, hnt, h with
    | [], _, _, h =>
      simp only [parseArgs, Option.some.injEq] at h
      rw [h]
    | [a], _, _, h =>
      unfold parseArgs at h
      split at h
      · exact absurd h (by simp)
      · simp only [Option.some.injEq] at h
        rw [h]
    | a :: v :: rest, hlen, hnt, h =>
      have ha : a ≠ "-t" := fun e => hnt (by simp [e])
      have hrest : "-t" ∉ rest := fun e => hnt (by simp [e])
      have hvrest : "-t" ∉ v :: rest := fun e => hnt (List.mem_cons_of_mem _ e)
      have hl1 : rest.length ≤ n := by simp only [List.length_cons] at hlen; omega
      have hl2 : (v :: rest).length ≤ n := by simp only [List.length_cons] at hlen ⊢; omega
      unfold parseArgs at h
      split_ifs at h
      · have e := ih rest _ o' hl1 hrest h
        exact e
      · have e := ih rest _ o' hl1 hrest h
        exact e
      · exact ih rest _ o' hl1 hrest h
      · have e := ih rest _ o' hl1 hrest h
        exact e
      · exact ih rest _ o' hl1 hrest h
      · exact ih (v :: rest) _ o' hl2 hvrest h

/-- Without a `-t` among the arguments, `main` either stops in the help branch or
passes the initial value 4 of `seconds` to `CreateWave`. -/
theorem mainSeconds_without_t (p : NumParsers) (args : List String) (h : "-t" ∉ args) :
    mainSeconds p args = none ∨ mainSeconds p args = some 4 := by
  unfold mainSeconds
  cases hp : parseArgs p args initialOptions with
  | none => exact Or.inl rfl
  | some o =>
    right
    have := parseArgs_keeps_seconds p args.length args initialOptions o (Nat.le_refl _) h hp
    simp only [Option.map_some', this]
    rfl

/-- C5: with no arguments at all (hence no `-t`), the `seconds` that `main` passes
to `CreateWave` is the initialiser 4, not the 5 seconds that the help text gives
as the default. -/
theorem mainSeconds_no_arguments (p : NumParsers) :
    mainSeconds p [] = some 4 ∧ mainSeconds p [] ≠ some helpDefaultSeconds := by
  constructor
  · rfl
  · simp [mainSeconds, parseArgs, initialOptions, helpDefaultSeconds]

theorem waveformSines_total_of (fuel : Nat) (type : WaveType) (n freq srate : Nat)
    (h : type = WT_Sine ∨ type = WT_Impulse ∨ type = WT_WhiteNoise ∨
      (1 ≤ freq ∧ freq < ALuintSize ∧ srate < ALuintSize ∧ ALuintSize ≤ fuel)) :
    ∃ l, waveformSines fuel type n freq srate = some l := by
  rcases h with rfl | rfl | rfl | ⟨hf, hfr, hsr, hfuel⟩
  · exact ⟨_, rfl⟩
  · exact ⟨_, rfl⟩
  · exact ⟨_, rfl⟩
  · exact waveformSines_total fuel type n freq srate hf hfr hsr hfuel

/-- C6: for a sample rate of at least 1, `CreateWave` takes the "Too many seconds"
branch (which returns 0) exactly when `seconds * srate * sizeof(ALfloat)`, over
the natural numbers, exceeds `INT_MAX`. When it does not, `seconds * srate` and
`seconds * srate * 4` are unchanged by reduction modulo `2^32`, every completed
run reports exactly these values as `num_samples` and `data_size`, and the run
does complete with them: for sine, impulse and noise always, and for the
waveforms with a harmonic loop for every 32-bit tone frequency of at least 1 and
32-bit sample rate, given fuel `2^32`. -/
theorem CreateWave_length_guard_exact (fuel : Nat) (type : WaveType) (seconds freq srate : Nat)
    (hs : 1 ≤ srate) :
    (CreateWave fuel type seconds freq srate = some WaveTrace.tooMany
        ↔ INT_MAX < seconds * srate * sizeofALfloat) ∧
    (∀ alErr buffer, CreateWaveReturn alErr buffer WaveTrace.tooMany = 0) ∧
    (¬ INT_MAX < seconds * srate * sizeofALfloat →
      (seconds * srate) % ALuintSize = seconds * srate ∧
      ((seconds * srate) % ALuintSize * sizeofALfloat) % ALuintSize
        = seconds * srate * sizeofALfloat ∧
      (∀ t, CreateWave fuel type seconds freq srate = some t →
        ∃ sines, t = WaveTrace.generated (seconds * srate)
          (seconds * srate * sizeofALfloat) sines) ∧
      ((type = WT_Sine ∨ type = WT_Impulse ∨ type = WT_WhiteNoise ∨
          (1 ≤ freq ∧ freq < ALuintSize ∧ srate < ALuintSize ∧ ALuintSize ≤ fuel)) →
        ∃ sines, CreateWave fuel type seconds freq srate
          = some (WaveTrace.generated (seconds * srate)
              (seconds * srate * sizeofALfloat) sines))) := by
  have hiff := tooManySeconds_iff seconds srate hs
  refine ⟨?_, fun _ _ => rfl, ?_⟩
  · constructor
    · intro h
      by_contra hn
      have hg : tooManySeconds seconds srate = false := by
        cases hb : tooManySeconds seconds srate with
        | false => rfl
        | true => exact absurd (hiff.mp hb) hn
      unfold CreateWave at h
      rw [hg] at h
      cases hw : waveformSines fuel type ((seconds * srate) % ALuintSize) freq srate with
      | none => simp [hw] at h
      | some l => simp [hw] at h
    · intro h
      unfold CreateWave
      rw [hiff.mpr h]
      rfl
  · intro hn
    obtain ⟨h1, h2⟩ := no_wrap_of_guard seconds srate hn
    have hg : tooManySeconds seconds srate = false := by
      cases hb : tooManySeconds seconds srate with
      | false => rfl
      | true => exact absurd (hiff.mp hb) hn
    have hrun : CreateWave fuel type seconds freq srate
        = (waveformSines fuel type (seconds * srate) freq srate).map
            (fun sines => WaveTrace.generated (seconds * srate)
              (seconds * srate * sizeofALfloat) sines) := by
      unfold CreateWave
      rw [hg]
      simp only [Bool.false_eq_true, if_false]
      rw [h2, h1]
    refine ⟨h1, h2, ?_, ?_⟩
    · intro t ht
      rw [hrun] at ht
      cases hw : waveformSines fuel type (seconds * srate) freq srate with
      | none => simp [hw] at ht
      | some l =>
        simp only [hw, Option.map_some', Option.some.injEq] at ht
        exact ⟨l, ht.symm⟩
    · intro hcase
      obtain ⟨l, hl⟩ := waveformSines_total_of fuel type (seconds * srate) freq srate hcase
      exact ⟨l, by rw [hrun, hl]; rfl⟩

/-- Witness for C6: one second of a 1000 Hz square wave at 44100 Hz passes the
guard and the run produces `num_samples = 44100` and `data_size = 176400`. -/
theorem CreateWave_length_guard_exact_witness :
    1 ≤ 44100 ∧ ¬ INT_MAX < 1 * 44100 * sizeofALfloat ∧
    (CreateWave 4294967296 WT_Square 1 1000 44100 = some WaveTrace.tooMany
        ↔ INT_MAX < 1 * 44100 * sizeofALfloat) ∧
    ∃ sines, CreateWave 4294967296 WT_Square 1 1000 44100
      = some (WaveTrace.generated (1 * 44100) (1 * 44100 * sizeofALfloat) sines) :=
  ⟨by decide, by decide,
    (CreateWave_length_guard_exact 4294967296 WT_Square 1 1000 44100 (by decide)).1,
    ((CreateWave_length_guard_exact 4294967296 WT_Square 1 1000 44100 (by decide)).2.2
      (by decide)).2.2.2
      (Or.inr (Or.inr (Or.inr ⟨by decide, by decide, by decide, by decide⟩)))⟩

/-- C7, as the code has it: for an additive waveform type, a tone frequency of at
least 1 and a run that passes the length guard, `CreateWave` completes its
synthesis; when the tone frequency is below `srate/2` it sums at least one sine
wave and every sine wave it sums is below `srate/2`; and for square, sawtooth
and triangle every sine wave summed is below `srate/2` whatever the tone
frequency, with none summed when the tone frequency is `srate/2` or more. -/
theorem CreateWave_additive_below_nyquist (fuel : Nat) (type : WaveType)
    (seconds freq srate : Nat) (hadd : isAdditive type = true)
    (hf : 1 ≤ freq) (hfr : freq < ALuintSize) (hsr : srate < ALuintSize)
    (hfuel : ALuintSize ≤ fuel) (hguard : tooManySeconds seconds srate = false) :
    ∃ sines, CreateWave fuel type seconds freq srate
        = some (WaveTrace.generated ((seconds * srate) % ALuintSize)
            (((seconds * srate) % ALuintSize * sizeofALfloat) % ALuintSize) sines) ∧
      (freq < srate / 2 → sines ≠ [] ∧ ∀ c ∈ sines, c.freq < srate / 2) ∧
      (type ≠ WT_Sine → ∀ c ∈ sines, c.freq < srate / 2) ∧
      (type ≠ WT_Sine → srate / 2 ≤ freq → sines = []) := by
  obtain ⟨l, hl⟩ := waveformSines_total fuel type ((seconds * srate) % ALuintSize) freq srate
    hf hfr hsr hfuel
  refine ⟨l, ?_, ?_, ?_, ?_⟩
  · unfold CreateWave
    rw [hguard]
    simp only [Bool.false_eq_true, if_false, hl, Option.map_some']
  · intro hlt
    exact ⟨waveformSines_nonempty fuel type _ freq srate hadd hlt l hl,
      waveformSines_below fuel type _ freq srate l hl (Or.inr hlt)⟩
  · intro hne
    exact waveformSines_below fuel type _ freq srate l hl (Or.inl hne)
  · intro hne hge
    exact waveformSines_above fuel type _ freq srate hadd hne hfr hge l hl

/-- Witness for C7: a 1000 Hz square wave at 8000 Hz for one second. -/
theorem CreateWave_additive_below_nyquist_witness :
    (isAdditive WT_Square = true ∧ 1 ≤ 1000 ∧ 1000 < ALuintSize ∧ 8000 < ALuintSize ∧
      ALuintSize ≤ 4294967296 ∧ tooManySeconds 1 8000 = false) ∧
    ∃ sines, CreateWave 4294967296 WT_Square 1 1000 8000
        = some (WaveTrace.generated ((1 * 8000) % ALuintSize)
            (((1 * 8000) % ALuintSize * sizeofALfloat) % ALuintSize) sines) ∧
      (1000 < 8000 / 2 → sines ≠ [] ∧ ∀ c ∈ sines, c.freq < 8000 / 2) ∧
      (WT_Square ≠ WT_Sine → ∀ c ∈ sines, c.freq < 8000 / 2) ∧
      (WT_Square ≠ WT_Sine → 8000 / 2 ≤ 1000 → sines = []) :=
  ⟨by decide,
   CreateWave_additive_below_nyquist 4294967296 WT_Square 1 1000 8000 (by decide) (by decide)
    (by decide) (by decide) (by decide) (by decide)⟩

/-- C7 fails as stated: at 1000 Hz and a sample rate of 40 Hz (`srate/2 = 20`)
the sine waveform sums a sine wave of 1000 Hz, which is not below `srate/2`, and
the square waveform sums no sine wave at all. -/
theorem CreateWave_not_below_nyquist :
    isAdditive WT_Sine = true ∧ isAdditive WT_Square = true ∧
    CreateWave 4294967296 WT_Sine 4 1000 40
      = some (WaveTrace.generated 160 640 [⟨160, 40, 1000, 1⟩]) ∧
    ¬ (∀ c ∈ [(⟨160, 40, 1000, 1⟩ : SinCall)], c.freq < 40 / 2) ∧
    CreateWave 4294967296 WT_Square 4 1000 40 = some (WaveTrace.generated 160 640 []) := by
  decide


end ALToneGen

namespace Core

theorem clearSamples_length {F : Type} [Zero F] (n : Nat) (dst : FloatBufferLine F) :
    (clearSamples n dst).length = dst.length := by
  induction n generalizing dst with
  | zero => rfl
  | succ n ih =>
    cases dst with
    | nil => rfl
    | cons d ds => simp [clearSamples, ih]

theorem clearSamples_getElem? {F : Type} [Zero F] (n : Nat) (dst : FloatBufferLine F) (s : Nat) :
    (clearSamples n dst)[s]? = if s < n then (dst[s]?).map (fun _ => (0 : F)) else dst[s]? := by
  induction n generalizing dst s with
  | zero => simp [clearSamples]
  | succ n ih =>
    cases dst with
    | nil => simp [clearSamples]
    | cons d ds =>
      cases s with
      | zero => simp [clearSamples]
      | succ s => simp [clearSamples, ih]

theorem mixSamples_length {F : Type} [Zero F] [Add F] [Mul F] (g : F) (src : FloatBufferLine F)
    (n : Nat) (dst : FloatBufferLine F) : (mixSamples g src n dst).length = dst.length := by
  induction n generalizing src dst with
  | zero => simp [mixSamples]
  | succ n ih =>
    cases dst with
    | nil => simp [mixSamples]
    | cons d ds => simp [mixSamples, ih]

theorem mixSamples_getElem? {F : Type} [Zero F] [Add F] [Mul F] (g : F)
    (src : FloatBufferLine F) (n : Nat) (dst : FloatBufferLine F) (s : Nat) :
    (mixSamples g src n dst)[s]?
      = if s < n then (dst[s]?).map (fun d => d + g * src.getD s 0) else dst[s]? := by
  induction n generalizing src dst s with
  | zero => simp [mixSamples]
  | succ n ih =>
    cases dst with
    | nil => simp [mixSamples]
    | cons d ds =>
      cases s with
      | zero => cases src <;> simp [mixSamples]
      | succ s => cases src <;> simp [mixSamples, ih]

theorem mixSamples_clear {F : Type} [Zero F] [Add F] [Mul F]
    (h0 : (0 : F) + 0 * 0 = 0) :
    ∀ (n : Nat) (src b : FloatBufferLine F), (∀ y ∈ src, (0 : F) + 0 * y = 0) →
      mixSamples (0 : F) src n (clearSamples n b) = clearSamples n b := by
  intro n
  induction n with
  | zero => intro src b _; simp [mixSamples, clearSamples]
  | succ n ih =>
    intro src b hsrc
    cases b with
    | nil => simp [mixSamples, clearSamples]
    | cons d ds =>
      cases src with
      | nil =>
        simp only [clearSamples, mixSamples, List.headD_nil, List.tail_nil, h0]
        rw [ih [] ds (by intro y hy; simp at hy)]
      | cons y ys =>
        simp only [clearSamples, mixSamples, List.headD_cons, List.tail_cons]
        rw [hsrc y (List.mem_cons_self y ys),
          ih ys ds (fun z hz => hsrc z (List.mem_cons_of_mem y hz))]

theorem decodeRowSingle_zero_gains {F : Type} [Zero F] [Add F] [Mul F] [DecidableEq F]
    (gains : List F) (n : Nat) (hz : ∀ j, gains.getD j 0 = 0) :
    ∀ (ins : List (FloatBufferLine F)) (i : Nat) (out : FloatBufferLine F),
      decodeRowSingle gains n ins i out = out := by
  intro ins
  induction ins with
  | nil => intro i out; rfl
  | cons inp rest ih =>
    intro i out
    unfold decodeRowSingle
    rw [if_pos (hz i)]
    exact ih (i + 1) out

theorem decodeRowSingle_one_gain {F : Type} [Zero F] [Add F] [Mul F] [DecidableEq F]
    (gains : List F) (n k : Nat) (hz : ∀ j, j ≠ k → gains.getD j 0 = 0) :
    ∀ (ins : List (FloatBufferLine F)) (i : Nat) (out inp : FloatBufferLine F),
      i ≤ k → ins[k - i]? = some inp →
      decodeRowSingle gains n ins i out
        = if gains.getD k 0 = 0 then out else mixSamples (gains.getD k 0) inp n out := by
  intro ins
  induction ins with
  | nil => intro i out inp _ h; simp at h
  | cons a rest ih =>
    intro i out inp hik hin
    unfold decodeRowSingle
    by_cases hki : i = k
    · subst hki
      simp only [Nat.sub_self, List.getElem?_cons_zero, Option.some.injEq] at hin
      subst hin
      have hrest : ∀ j, i < j → ∀ (l : List (FloatBufferLine F)) (o : FloatBufferLine F),
          decodeRowSingle gains n l j o = o := by
        intro j hj l
        induction l generalizing j with
        | nil => intro o; rfl
        | cons b l ihl =>
          intro o
          unfold decodeRowSingle
          rw [if_pos (hz j (by omega))]
          exact ihl (j + 1) (by omega) o
      rw [hrest (i + 1) (by omega)]
    · have hlt : i < k := by omega
      rw [if_pos (hz i hki)]
      have hidx : k - i = (k - (i + 1)) + 1 := by omega
      rw [hidx, List.getElem?_cons_succ] at hin
      exact ih (i + 1) out inp (by omega) hin

theorem processSingle_getElem? {F : Type} [Zero F] [Add F] [Mul F] [DecidableEq F] {M : Nat}
    (ins : List (FloatBufferLine F)) (n : Nat) :
    ∀ (dec : SBandDecoderVector F M) (bufs : List (FloatBufferLine F)) (o : Nat)
      (e : ChannelDecoderSingle F M) (b : FloatBufferLine F),
      dec[o]? = some e → bufs[o]? = some b →
      (processSingle ins n dec bufs)[o]?
        = some (decodeRowSingle e.mGains.1 n ins 0 (clearSamples n b)) := by
  intro dec
  induction dec with
  | nil => intro bufs o e b he _; simp at he
  | cons e0 es ih =>
    intro bufs o e b he hb
    cases bufs with
    | nil => simp at hb
    | cons b0 bs =>
      cases o with
      | zero =>
        simp only [List.getElem?_cons_zero, Option.some.injEq] at he hb
        subst he hb
        simp [processSingle]
      | succ o =>
        simp only [List.getElem?_cons_succ] at he hb
        simp only [processSingle, List.getElem?_cons_succ]
        exact ih bs o e b he hb

theorem decodeRowDual_silent {F X : Type} [Zero F] [Add F] [Mul F]
    (ops : BandSplitterOps F X) (hfGains lfGains : List F) (n : Nat)
    (hh : ∀ j, hfGains.getD j 0 = 0) (hl : ∀ j, lfGains.getD j 0 = 0)
    (h0 : (0 : F) + 0 * 0 = 0) (b : FloatBufferLine F) :
    ∀ (ins : List (FloatBufferLine F)) (i : Nat) (x : X)
      (scratch : StdArray (FloatBufferLine F) 2),
      (∀ l ∈ rowSplits ops n ins x, ∀ y ∈ l, (0 : F) + 0 * y = 0) →
      (decodeRowDual ops hfGains lfGains n ins i x scratch (clearSamples n b)).2.2
        = clearSamples n b := by
  intro ins
  induction ins with
  | nil => intro i x scratch _; rfl
  | cons inp rest ih =>
    intro i x scratch hs
    unfold decodeRowDual
    simp only [hh i, hl i]
    rw [mixSamples_clear h0 n _ b (hs _ (by simp [rowSplits])),
      mixSamples_clear h0 n _ b (hs _ (by simp [rowSplits]))]
    exact ih _ _ _ (fun l hl2 => hs l (by simp [rowSplits, hl2]))

theorem processDual_getElem? {F X : Type} [Zero F] [Add F] [Mul F] {M : Nat}
    (ops : BandSplitterOps F X) (ins : List (FloatBufferLine F)) (n : Nat) :
    ∀ (dec : DBandDecoderVector F X M) (scratch : StdArray (FloatBufferLine F) 2)
      (bufs : List (FloatBufferLine F)) (o : Nat)
      (e : ChannelDecoderDual F X M) (b : FloatBufferLine F),
      dec[o]? = some e → bufs[o]? = some b →
      ∃ scr, (processDual ops ins n dec scratch bufs).2.2[o]?
        = some (decodeRowDual ops (e.bandGains ⟨sHFBand, by decide⟩).1
            (e.bandGains ⟨sLFBand, by decide⟩).1 n ins 0 e.mXOver scr (clearSamples n b)).2.2 := by
  intro dec
  induction dec with
  | nil => intro scratch bufs o e b he _; simp at he
  | cons e0 es ih =>
    intro scratch bufs o e b he hb
    cases bufs with
    | nil => simp at hb
    | cons b0 bs =>
      cases o with
      | zero =>
        simp only [List.getElem?_cons_zero, Option.some.injEq] at he hb
        subst he hb
        exact ⟨scratch, by simp [processDual]⟩
      | succ o =>
        simp only [List.getElem?_cons_succ] at he hb
        simp only [processDual, List.getElem?_cons_succ]
        exact ih _ bs o e b he hb

theorem getD_zero_of_all_zero {F : Type} [Zero F] (l : List F) (h : ∀ x ∈ l, x = 0) (j : Nat) :
    l.getD j 0 = 0 := by
  rw [List.getD_eq_getElem?_getD]
  cases hj : l[j]? with
  | none => rfl
  | some x => exact h x (List.getElem?_mem hj)

theorem storeGains_getD {F : Type} [Zero F] {A : Nat} (M inchans : Nat) (c : ChannelDec F A)
    (j : Nat) :
    (storeGains M inchans c).1.getD j 0 = if j < M ∧ j < inchans then c.1.getD j 0 else 0 := by
  unfold storeGains
  rw [List.getD_eq_getElem?_getD]
  by_cases hj : j < M
  · by_cases hi : j < inchans
    · simp [List.getElem?_range hj, hj, hi]
    · simp [List.getElem?_range hj, hj, hi]
  · have hnone : (List.range M)[j]? = none :=
      List.getElem?_eq_none (by rw [List.length_range]; omega)
    simp [hnone, hj]

theorem process_single_one_gain {F X S : Type} [NonUnitalNonAssocSemiring F] [DecidableEq F]
    {M : Nat} (ops : BandSplitterOps F X) (d : BFormatDec F X S M)
    (decoder : SBandDecoderVector F M) (hd : d.mChannelDec = Sum.inl decoder)
    (OutBuffer InSamples : List (FloatBufferLine F)) (SamplesToDo o k : Nat)
    (e : ChannelDecoderSingle F M) (he : decoder[o]? = some e)
    (b : FloatBufferLine F) (hb : OutBuffer[o]? = some b)
    (inp : FloatBufferLine F) (hin : InSamples[k]? = some inp)
    (g : F) (hg : e.mGains.1.getD k 0 = g) (hz : ∀ j, j ≠ k → e.mGains.1.getD j 0 = 0) :
    ∃ out, (d.process ops OutBuffer InSamples SamplesToDo).2[o]? = some out ∧
      out.length = b.length ∧
      (∀ s x, s < SamplesToDo → s < b.length → inp[s]? = some x → out[s]? = some (g * x)) ∧
      (∀ s, SamplesToDo ≤ s → out[s]? = b[s]?) := by
  have hproc : (d.process ops OutBuffer InSamples SamplesToDo).2
      = processSingle InSamples SamplesToDo decoder OutBuffer := by
    simp only [BFormatDec.process, hd]
  have hrow := decodeRowSingle_one_gain e.mGains.1 SamplesToDo k hz InSamples 0
    (clearSamples SamplesToDo b) inp (Nat.zero_le k) (by simpa using hin)
  rw [hg] at hrow
  have hout := processSingle_getElem? InSamples SamplesToDo decoder OutBuffer o e b he hb
  rw [← hproc] at hout
  refine ⟨_, hout, ?_, ?_, ?_⟩
  · rw [hrow]
    split
    · exact clearSamples_length _ _
    · rw [mixSamples_length, clearSamples_length]
  · intro s x hs hsb hx
    have hbs : b[s]? = some b[s] := List.getElem?_eq_getElem hsb
    have hxd : inp.getD s 0 = x := by rw [List.getD_eq_getElem?_getD, hx]; rfl
    rw [hrow]
    split
    · rename_i hg0
      rw [clearSamples_getElem?, if_pos hs, hbs, hg0, zero_mul]
      rfl
    · rw [mixSamples_getElem?, if_pos hs, clearSamples_getElem?, if_pos hs, hbs, hxd]
      simp
  · intro s hs
    have hns : ¬ s < SamplesToDo := by omega
    rw [hrow]
    split
    · rw [clearSamples_getElem?, if_neg hns]
    · rw [mixSamples_getElem?, if_neg hns, clearSamples_getElem?, if_neg hns]

theorem scenario_row (gains : List ℚ) (hg : gains.getD 0 0 = 1) (b : FloatBufferLine ℚ)
    (hb : 4 ≤ b.length) :
    List.take 4 (decodeRowSingle gains 4 [[1/2, 1/2, 1/2, 1/2]] 0 (clearSamples 4 b))
      = [1/2, 1/2, 1/2, 1/2] := by
  obtain ⟨b0, b1, b2, b3, rest, rfl⟩ : ∃ b0 b1 b2 b3 rest, b = b0 :: b1 :: b2 :: b3 :: rest := by
    match b, hb with
    | [], h => simp at h
    | [_], h => simp at h
    | [_, _], h => simp at h
    | [_, _, _], h => simp at h
    | b0 :: b1 :: b2 :: b3 :: rest, _ => exact ⟨b0, b1, b2, b3, rest, rfl⟩
  rw [List.getD_eq_getElem?_getD] at hg
  simp [decodeRowSingle, hg, clearSamples, mixSamples]

/-- C1: the concrete scenario (one ambisonic channel, two outputs with single-band
gain 1, no low-band gains, no stabilizer, input constant 1/2 for 4 samples: both
output lines hold 1/2 on those 4 samples, whatever they held before), and the
general statement: in a single-band decoder, an output channel with gain `g` on
ambisonic channel `k` and zero on every other channel holds `g` times the input
sample of channel `k` at every processed position, and is unchanged beyond. -/
theorem process_single_band_decode :
    (∀ (X S : Type) (ops : BandSplitterOps ℚ X) (A M : Nat) (xover : ℚ), 1 ≤ M →
      ∃ d : BFormatDec ℚ X S M,
        BFormatDec.construct ops M 1 [wCoeff A (1 : ℚ), wCoeff A 1] [] xover none = some d ∧
        d.hasStablizer = false ∧
        ∀ out0 out1 : FloatBufferLine ℚ, 4 ≤ out0.length → 4 ≤ out1.length →
          (d.process ops [out0, out1] [[1/2, 1/2, 1/2, 1/2]] 4).2.map (List.take 4)
            = [[1/2, 1/2, 1/2, 1/2], [1/2, 1/2, 1/2, 1/2]]) ∧
    (∀ (F X S : Type) [NonUnitalNonAssocSemiring F] [DecidableEq F] (M : Nat)
      (ops : BandSplitterOps F X) (d : BFormatDec F X S M)
      (decoder : SBandDecoderVector F M) (OutBuffer InSamples : List (FloatBufferLine F))
      (SamplesToDo o k : Nat) (e : ChannelDecoderSingle F M) (b inp : FloatBufferLine F)
      (g : F),
      d.mChannelDec = Sum.inl decoder → decoder[o]? = some e → OutBuffer[o]? = some b →
      InSamples[k]? = some inp → e.mGains.1.getD k 0 = g →
      (∀ j, j ≠ k → e.mGains.1.getD j 0 = 0) →
      ∃ out, (d.process ops OutBuffer InSamples SamplesToDo).2[o]? = some out ∧
        out.length = b.length ∧
        (∀ s x, s < SamplesToDo → s < b.length → inp[s]? = some x →
          out[s]? = some (g * x)) ∧
        (∀ s, SamplesToDo ≤ s → out[s]? = b[s]?)) := by
  constructor
  · intro X S ops A M xover hM
    refine ⟨_, rfl, rfl, ?_⟩
    intro out0 out1 h0 h1
    have hg : (storeGains M 1 (wCoeff A (1 : ℚ))).1.getD 0 0 = 1 := by
      rw [storeGains_getD, if_pos ⟨by omega, by omega⟩]
      rfl
    simp only [BFormatDec.process, List.map_cons, List.map_nil, processSingle]
    rw [scenario_row _ hg out0 h0, scenario_row _ hg out1 h1]
  · intro F X S _ _ M ops d decoder OutBuffer InSamples SamplesToDo o k e b inp g
      hd he hb hin hg hz
    exact process_single_one_gain ops d decoder hd OutBuffer InSamples SamplesToDo o k e he
      b hb inp hin g hg hz

/-- Witness for C1: the general statement at the example decoder, output 1,
ambisonic channel 0, input constant 1/2 for 4 samples. -/
theorem process_single_band_decode_witness :
    (1 ≤ 1 ∧ ∃ d : BFormatDec ℚ Unit Unit 1,
        BFormatDec.construct passThroughSplitter 1 1 [wCoeff 0 (1 : ℚ), wCoeff 0 1] [] 0 none
          = some d ∧
        d.hasStablizer = false ∧
        ∀ out0 out1 : FloatBufferLine ℚ, 4 ≤ out0.length → 4 ≤ out1.length →
          (d.process passThroughSplitter [out0, out1] [[1/2, 1/2, 1/2, 1/2]] 4).2.map
              (List.take 4)
            = [[1/2, 1/2, 1/2, 1/2], [1/2, 1/2, 1/2, 1/2]]) ∧
    ∃ out, (exampleSingleDec.process passThroughSplitter [[3, 3, 3, 3, 3], [7, 7, 7, 7, 7]]
        [[1/2, 1/2, 1/2, 1/2]] 4).2[1]? = some out ∧
      out.length = [(7 : ℚ), 7, 7, 7, 7].length ∧
      (∀ s x, s < 4 → s < [(7 : ℚ), 7, 7, 7, 7].length →
        [(1/2 : ℚ), 1/2, 1/2, 1/2][s]? = some x → out[s]? = some (1 * x)) ∧
      (∀ s, 4 ≤ s → out[s]? = [(7 : ℚ), 7, 7, 7, 7][s]?) :=
  ⟨⟨by decide, process_single_band_decode.1 Unit Unit passThroughSplitter 0 1 0 (by decide)⟩,
   process_single_band_decode.2 ℚ Unit Unit 1 passThroughSplitter exampleSingleDec
    [⟨⟨[1], rfl⟩⟩, ⟨⟨[1], rfl⟩⟩] [[3, 3, 3, 3, 3], [7, 7, 7, 7, 7]] [[1/2, 1/2, 1/2, 1/2]]
    4 1 0 ⟨⟨[1], rfl⟩⟩ [7, 7, 7, 7, 7] [1/2, 1/2, 1/2, 1/2] 1 rfl rfl rfl rfl rfl
    (fun j hj => by
      cases j with
      | zero => exact absurd rfl hj
      | succ j => rfl)⟩

theorem FloatVal.finite_silenced (q : ℚ) :
    (0 : FloatVal) + 0 * FloatVal.finite q = 0 := by
  show FloatVal.add (FloatVal.finite 0) (FloatVal.mul (FloatVal.finite 0) (FloatVal.finite q))
    = FloatVal.finite 0
  simp [FloatVal.add, FloatVal.mul]

/-- C3: `hasStablizer` answers true exactly when the decoder holds a Front
Stabilizer and false exactly when it holds none; the call leaves the decoder,
hence each of its fields, as it was, and a second call gives the same answer. -/
theorem hasStablizer_pure {F X S : Type} {M : Nat} (d : BFormatDec F X S M) :
    (d.hasStablizer = true ↔ ∃ st, d.mStablizer = some st) ∧
    (d.hasStablizer = false ↔ d.mStablizer = none) ∧
    d.callHasStablizer.1 = d.hasStablizer ∧
    d.callHasStablizer.2 = d ∧
    d.callHasStablizer.2.mStablizer = d.mStablizer ∧
    d.callHasStablizer.2.mChannelDec = d.mChannelDec ∧
    d.callHasStablizer.2.mSamples = d.mSamples ∧
    d.callHasStablizer.2.callHasStablizer.1 = d.callHasStablizer.1 := by
  refine ⟨?_, ?_, rfl, rfl, rfl, rfl, rfl, rfl⟩
  · unfold BFormatDec.hasStablizer
    cases d.mStablizer <;> simp
  · unfold BFormatDec.hasStablizer
    cases d.mStablizer <;> simp

/-- C4: in every decoder state the decode matrix is one alternative of the
variant: all its entries are single-band or all are dual-band, never both
alternatives; every dual-band entry has its own splitter and exactly `sNumBands`
= 2 gain vectors, the high band at index 0 and the low band at index 1. -/
theorem mChannelDec_homogeneous {F X S : Type} {M : Nat} (d : BFormatDec F X S M) :
    ((∀ m ∈ d.entryModes, m = BandMode.single) ∨ (∀ m ∈ d.entryModes, m = BandMode.dual)) ∧
    ((∃ v, d.mChannelDec = Sum.inl v ∧ d.entryModes.length = v.length) ∨
      (∃ v, d.mChannelDec = Sum.inr v ∧ d.entryModes.length = v.length)) ∧
    ¬ ((∃ v, d.mChannelDec = Sum.inl v) ∧ (∃ v, d.mChannelDec = Sum.inr v)) ∧
    (∀ v, d.mChannelDec = Sum.inr v → ∀ e ∈ v,
      e.mGains.1.length = 2 ∧
      e.mGains.1[sHFBand]? = some (e.bandGains ⟨0, by decide⟩) ∧
      e.mGains.1[sLFBand]? = some (e.bandGains ⟨1, by decide⟩)) ∧
    sHFBand = 0 ∧ sLFBand = 1 ∧ sNumBands = 2 := by
  refine ⟨?_, ?_, ?_, ?_, rfl, rfl, rfl⟩
  · unfold BFormatDec.entryModes
    cases d.mChannelDec with
    | inl v => left; intro m hm; simp only [List.mem_map] at hm; obtain ⟨_, _, rfl⟩ := hm; rfl
    | inr v => right; intro m hm; simp only [List.mem_map] at hm; obtain ⟨_, _, rfl⟩ := hm; rfl
  · unfold BFormatDec.entryModes
    cases d.mChannelDec with
    | inl v => left; exact ⟨v, rfl, by simp⟩
    | inr v => right; exact ⟨v, rfl, by simp⟩
  · rintro ⟨⟨v, hv⟩, ⟨w, hw⟩⟩
    rw [hv] at hw
    cases hw
  · intro v _ e _
    refine ⟨e.mGains.2, ?_, ?_⟩
    · unfold ChannelDecoderDual.bandGains StdArray.get sHFBand
      rw [List.getElem?_eq_getElem (by rw [e.mGains.2]; decide)]
      rfl
    · unfold ChannelDecoderDual.bandGains StdArray.get sLFBand
      rw [List.getElem?_eq_getElem (by rw [e.mGains.2]; decide)]
      rfl

/-- Witness for C4: the dual-band example decoder and its only entry. -/
theorem mChannelDec_homogeneous_witness :
    exampleSilentDec.mChannelDec = Sum.inr [exampleSilentEntry] ∧
    exampleSilentEntry ∈ [exampleSilentEntry] ∧
    (exampleSilentEntry.mGains.1.length = 2 ∧
      exampleSilentEntry.mGains.1[sHFBand]? = some (exampleSilentEntry.bandGains ⟨0, by decide⟩) ∧
      exampleSilentEntry.mGains.1[sLFBand]? = some (exampleSilentEntry.bandGains ⟨1, by decide⟩)) :=
  ⟨rfl, List.mem_singleton.mpr rfl,
    (mChannelDec_homogeneous exampleSilentDec).2.2.2.1 [exampleSilentEntry] rfl
      exampleSilentEntry (List.mem_singleton.mpr rfl)⟩

end Core
